import Mathlib

/-!
# Revolver search core — shallow embedding

A shallow embedding of the search core of the Revolver chess engine
(the iterative-deepening alpha-beta driver with aspiration windows, the
fail-soft alpha-beta search with transposition caching, the quiescence
search, and the self-play training driver), together with theorems checking
the natural-language specification against it.

External collaborators (board representation, move generation and legality,
static evaluation, the staged move selector, the wall clock) are abstracted
into an `Env` record of oracle functions, exactly the contracts the
specification places out of scope.  Machine integers are modelled as
`Int`/`Nat`; C integer division (truncation toward zero) is `Int.div`.
The wall-clock comparison inside `outOfTime` is modelled by a boolean
oracle indexed by the number of clock reads performed so far.  Two ghost
fields of the search context (`pollCount`, `writeLog`) record observable
events (clock polls and transposition-table stores) without influencing
the search; `writeLog` records the value of the `stop` flag at the moment
of each store.
-/

namespace Revolver

/-- Moves are small opaque values; `NO_MOVE = 0` is the falsy sentinel. -/
abbrev Move := Nat

/-- Boards are abstract; every query about a board goes through `Env`. -/
abbrev Board := Nat

def NO_MOVE : Move := 0

/-- Modelled from the spec: the score constants live in `utility.h`, which is
not among the sources.  §3 of the spec fixes `DRAW = 0` and the ordering
`GUARANTEE_CHECKMATE < CHECKMATE < INFINITE` with mate scores of the form
`CHECKMATE - k` for ply distances `k` (bounded by `MAX_DEPTH = 255`). -/
def CHECKMATE : Int := 32000

/-- Modelled from the spec: mate-range threshold, `CHECKMATE - MAX_DEPTH`. -/
def GUARANTEE_CHECKMATE : Int := 32000 - 255

/-- Modelled from the spec: the window sentinel, above every real score. -/
def INFINITE : Int := 32001

def DRAW : Int := 0

def MAX_DEPTH : Nat := 255

/-- Bound kinds for transposition-table entries. -/
inductive Bound where
  | EXACT
  | LOWER
  | UPPER
  deriving Repr, DecidableEq, BEq

/-- Node kinds controlling pruning aggressiveness and PV collection. -/
inductive Node where
  | ROOT
  | PV
  | NON_PV
  deriving Repr, DecidableEq, BEq

/-- The two move-selector start states consumed by the search core. -/
inductive MoveSelectorState where
  | TT_MOVE
  | GET_NON_CAPTURE_MOVES
  deriving Repr, DecidableEq, BEq

/-- Modelled from the spec: `PositionEvaluation` is the TT entry type of
`transposition_table.h` (not among the sources); §3 lists its fields
`{bestMove, depth, bound, nodeScore, staticEvaluation}` (age is the
table's concern and is dropped). -/
structure PositionEvaluation where
  bestMove : Move
  depth : Nat
  bound : Bound
  nodeScore : Int
  staticEvaluation : Int
  deriving Repr, DecidableEq

structure MoveObject where
  move : Move
  score : Int
  deriving Repr, DecidableEq

/-- Ghost record of one `savePositionEvaluation` call; `stopFlag` is the
value of the context's `stop` flag at the moment the store executed. -/
structure TTWrite where
  key : Nat
  move : Move
  depth : Nat
  bound : Bound
  nodeScore : Int
  staticEvaluation : Int
  stopFlag : Bool
  deriving Repr, DecidableEq

abbrev TTMap := List (Nat × PositionEvaluation)

/-- The per-search mutable context (`SearchThread` in `search.h`).  The
accumulator stack is out of scope (static evaluation is abstract), and the
two clock fields are replaced by the ghost `pollCount` index into the
environment's time oracle. -/
structure SearchThread where
  board : Board
  tt : TTMap
  nodes : Nat
  bestMove : MoveObject
  ply : Nat
  print : Bool
  stop : Bool
  pollCount : Nat
  writeLog : List TTWrite
  deriving Repr, DecidableEq

/-- The out-of-scope collaborators (§1, §6 of the spec): board/eval
subsystem, move ordering, and the clock.  `timeOut k` answers the `k`-th
wall-clock comparison `elapsed ≥ budget` of the run.  `isInteresting`
corresponds to the source's capture/en-passant/queen-promotion test, whose
body reads board internals that are out of scope. -/
structure Env where
  isDraw : Board → Bool
  getCheckers : Board → Bool
  evaluation : Board → Int
  getPositionKey : Board → Nat
  isLegalMove : Board → Move → Bool
  makeMove : Board → Move → Board
  makeNullMove : Board → Board
  hasNonPawnMaterial : Board → Bool
  isInteresting : Board → Move → Bool
  selectMoves : Board → MoveSelectorState → Move → List Move
  timeOut : Nat → Bool
  sideToMove : Board → Bool
  getFEN : Board → String
  insufficientMaterial : Board → Bool

/-- Result of one `alphaBeta` call: the fail-soft score, the content of this
node's PV buffer (`sh->pv`, as the list of moves before the `NO_MOVE`
terminator), and the updated context. -/
structure ABResult where
  score : Int
  pv : List Move
  state : SearchThread
  deriving Repr, DecidableEq

/-- `probeTranspositionTable`: an entry and a hit flag, modelled as a lookup. -/
def ttLookup (tt : TTMap) (key : Nat) : Option PositionEvaluation :=
  match tt with
  | [] => none
  | (k, pe) :: rest => if k = key then some pe else ttLookup rest key

/-- `savePositionEvaluation`: store an entry and record the write in the
ghost log together with the current value of the `stop` flag. -/
def savePositionEvaluation (st : SearchThread) (key : Nat) (move : Move)
    (depth : Nat) (bound : Bound) (nodeScore staticEvaluation : Int) :
    SearchThread :=
  { st with
    tt := (key, ⟨move, depth, bound, nodeScore, staticEvaluation⟩) :: st.tt,
    writeLog :=
      ⟨key, move, depth, bound, nodeScore, staticEvaluation, st.stop⟩ ::
        st.writeLog }

/-- Modelled from the spec: `adjustNodeScoreToTT` lives in
`transposition_table.h` (not among the sources); §4.2 fixes
`adjustMateToTT(s, ply) = s + ply` for mate-for scores, `s - ply` for
mate-against scores, unchanged otherwise. -/
def adjustNodeScoreToTT (s : Int) (ply : Nat) : Int :=
  if GUARANTEE_CHECKMATE ≤ s then s + ply
  else if s ≤ -GUARANTEE_CHECKMATE then s - ply
  else s

/-- Modelled from the spec: the inverse adjustment applied on a TT hit. -/
def adjustNodeScoreFromTT (s : Int) (ply : Nat) : Int :=
  if GUARANTEE_CHECKMATE ≤ s then s - ply
  else if s ≤ -GUARANTEE_CHECKMATE then s + ply
  else s

/-- `outOfTime` (`search.h` line 43): `st->stop = elapsed >= budget`.  The
clock comparison is the oracle at the current poll index; note that the
result is *assigned* to (not or-ed into) the `stop` flag. -/
def outOfTime (env : Env) (st : SearchThread) : Bool × SearchThread :=
  let b := env.timeOut st.pollCount
  (b, { st with stop := b, pollCount := st.pollCount + 1 })

/-- `updatePV`: prepend `move` to a copy of the child PV. -/
def updatePV (move : Move) (childPV : List Move) : List Move :=
  move :: childPV

/-- `getReverseFutilityPruningScore` (source line 45). -/
def getReverseFutilityPruningScore (staticEvaluation : Int) (depth : Nat) :
    Int :=
  staticEvaluation + 150 * depth

/-- `getRFPMargin` (source line 50). -/
def getRFPMargin (depth : Nat) : Int :=
  150 * depth

/-- The score-rendering part of `printSearch` (source lines 58-61): the
score type string and the value printed after it.  C division truncates
toward zero, which is `Int.tdiv`. -/
def printSearchScore (score : Int) : String × Int :=
  let scoreType :=
    if GUARANTEE_CHECKMATE ≤ score ∨ score ≤ -GUARANTEE_CHECKMATE then "mate"
    else "cp"
  let value :=
    if GUARANTEE_CHECKMATE ≤ score then Int.tdiv (CHECKMATE - score + 1) 2
    else if score ≤ -GUARANTEE_CHECKMATE then Int.tdiv (-CHECKMATE - score) 2
    else score
  (scoreType, value)

/-- The claim's rendering formula for mate scores, with the division read
as mathematical (floor) division: `(CHECKMATE - s + 1) / 2` for positive
mate scores and `(-CHECKMATE - s + 1) / 2` for negative ones (claim-side
definition, to be compared with `printSearchScore`). -/
def specMateValue (s : Int) : Int :=
  if 0 < s then Int.fdiv (CHECKMATE - s + 1) 2
  else Int.fdiv (-CHECKMATE - s + 1) 2

/-- The transposition-table block of `alphaBeta` (source lines 131-139):
given the probe result, either an early cutoff score or the TT-move hint
for the move selector.  The hint component is `pe->bestMove` exactly when
the probe hit, `NO_MOVE` otherwise; `alphaBeta` reads it only when the
cutoff component is `none`, mirroring the early `return`. -/
def ttProbeDecision (probe : Option PositionEvaluation) (isPvNode : Bool)
    (depth ply : Nat) (alpha beta : Int) : Option Int × Move :=
  match probe with
  | none => (none, NO_MOVE)
  | some pe =>
    let cut : Option Int :=
      if !isPvNode && decide (depth ≤ pe.depth) then
        let nodeScore := adjustNodeScoreFromTT pe.nodeScore ply
        if pe.bound == Bound.EXACT
            || (if pe.bound == Bound.LOWER then decide (beta ≤ nodeScore)
                else decide (nodeScore ≤ alpha)) then
          some nodeScore
        else none
      else none
    (cut, pe.bestMove)

/-- The static evaluation chosen at an `alphaBeta` node (source lines
147-150): `-INFINITE` in check, else the stored `staticEvaluation` on a TT
hit, else the evaluator. -/
def nodeStaticEvaluation (env : Env) (st : SearchThread) : Int :=
  if env.getCheckers st.board then -INFINITE
  else
    match ttLookup st.tt (env.getPositionKey st.board) with
    | some pe => pe.staticEvaluation
    | none => env.evaluation st.board

/-- Accumulator of the quiescence move loop: `done` models the early
`return` on a beta cutoff, `cont` carries the loop variables. -/
inductive QAcc where
  | done (score : Int) (st : SearchThread)
  | cont (alpha bestScore : Int) (st : SearchThread)
  deriving Repr, DecidableEq

/-- One iteration of the quiescence move loop (source lines 91-108); `rec`
is the recursive quiescence search applied to the child. -/
def qsStep (env : Env) (board : Board) (beta : Int)
    (rec : Int → Int → SearchThread → Int × SearchThread)
    (acc : QAcc) (move : Move) : QAcc :=
  match acc with
  | .done s stA => .done s stA
  | .cont alpha bestScore stA =>
    if env.isLegalMove board move = false then .cont alpha bestScore stA
    else
      let stB := { stA with ply := stA.ply + 1, board := env.makeMove board move }
      let (cs, stC) := rec (-beta) (-alpha) stB
      let score := -cs
      let stD := { stC with ply := stC.ply - 1, board := board }
      if bestScore < score then
        if alpha < score then
          if beta ≤ score then .done score stD
          else .cont score score stD
        else .cont alpha score stD
      else .cont alpha bestScore stD

/-- The main moves loop of `quiescenceSearch` (source lines 84-110): the
selector state depends on `checkers`, and the loop folds `qsStep` over the
yielded moves, starting from the stand-pat `bestScore`. -/
def qsMainLoop (env : Env) (board : Board) (beta : Int) (checkers : Bool)
    (bestScore : Int)
    (rec : Int → Int → SearchThread → Int × SearchThread)
    (alpha : Int) (st : SearchThread) : Int × SearchThread :=
  let state :=
    if checkers then MoveSelectorState.TT_MOVE
    else MoveSelectorState.GET_NON_CAPTURE_MOVES
  let moves := env.selectMoves board state NO_MOVE
  match moves.foldl (fun acc move => qsStep env board beta rec acc move)
      (QAcc.cont alpha bestScore st) with
  | .done s stA => (s, stA)
  | .cont _ bs stA => (bs, stA)

/-- `quiescenceSearch` (source lines 65-111).  The C function terminates
because noisy move chains are finite; the shallow embedding makes this a
fuel argument, returning `DRAW` with the context untouched when the fuel
runs out. -/
def quiescenceSearch (env : Env) : Nat → Int → Int → SearchThread →
    Int × SearchThread
  | 0, _, _, st => (DRAW, st)
  | fuel + 1, alpha0, beta, st0 =>
    let board := st0.board
    let st := { st0 with nodes := st0.nodes + 1 }
    -- 1) Draw Detection
    if env.isDraw board then (DRAW, st)
    else
      let checkers := env.getCheckers board
      -- Stand Pat
      let bestScore : Int :=
        if checkers then -CHECKMATE + st.ply else env.evaluation board
      if alpha0 < bestScore then
        if beta ≤ bestScore then (bestScore, st)
        else
          qsMainLoop env board beta checkers bestScore
            (fun a b s => quiescenceSearch env fuel a b s) bestScore st
      else
        qsMainLoop env board beta checkers bestScore
          (fun a b s => quiescenceSearch env fuel a b s) alpha0 st

/-- Accumulator of the alpha-beta move loop: `done` models the early
`return` of a beta cutoff, `cont` carries `alpha`, `bestScore`,
`bestMove`, `legalMoves`, the PV buffer of this node and the context. -/
inductive ABAcc where
  | done (r : ABResult)
  | cont (alpha bestScore : Int) (bestMove : Move) (legalMoves : Nat)
      (pv : List Move) (st : SearchThread)
  deriving Repr, DecidableEq

/-- The fail-soft bookkeeping after one searched move (source lines
201-212): beta cutoff with a stop-guarded TT store, PV update on an alpha
improvement below beta, and best-score/best-move tracking.  `stE` is the
context after the `undoMove`/`ply--` pair. -/
def abBookkeeping (positionKey : Nat) (move : Move) (depth : Nat)
    (staticEvaluation : Int) (alpha beta bestScore : Int) (bestMove : Move)
    (legalMoves : Nat) (pv : List Move) (score : Int) (childPv : List Move)
    (stE : SearchThread) : ABAcc :=
  if bestScore < score then
    if alpha < score then
      if beta ≤ score then
        let stF :=
          if stE.stop then stE
          else
            savePositionEvaluation stE positionKey move depth Bound.LOWER
              (adjustNodeScoreToTT score stE.ply) staticEvaluation
        .done ⟨score, pv, stF⟩
      else .cont score score move legalMoves (updatePV move childPv) stE
    else .cont alpha score move legalMoves pv stE
  else .cont alpha bestScore bestMove legalMoves pv stE

/-- The two-call principal-variation search on one child (source lines
193-195): the null-window search when `expectedNonPvNode`, then the
full-window re-search at PV nodes for the first legal move or on a
null-window score above alpha.  When `expectedNonPvNode` is false (a PV
node's first legal move) the C `score` variable is still unwritten at the
re-search test; the `legalMoves == 1` disjunct short-circuits there, so
the placeholder below is never read.  Returns the negated score, the
child's PV buffer after the last search, and the context. -/
def abPVS (beta : Int) (depth : Nat) (isPvNode expectedNonPvNode : Bool)
    (reductions : Nat) (alpha : Int) (legalMoves : Nat)
    (rec : Int → Int → Nat → Node → SearchThread → ABResult)
    (stB : SearchThread) : Int × List Move × SearchThread :=
  let (score, childPv, stC) :=
    if expectedNonPvNode then
      let r := rec (-alpha - 1) (-alpha) (depth - reductions) Node.NON_PV stB
      (-r.score, r.pv, r.state)
    else ((0 : Int), ([] : List Move), stB)
  if isPvNode && (decide (legalMoves = 1) || decide (alpha < score)) then
    let r := rec (-beta) (-alpha) (depth - 1) Node.PV stC
    (-r.score, r.pv, r.state)
  else (score, childPv, stC)

/-- One iteration of the alpha-beta move loop (source lines 175-213); `rec`
is the recursive `alphaBeta` applied to children. -/
def abStep (env : Env) (board : Board) (beta : Int) (depth : Nat)
    (isPvNode checkers : Bool) (staticEvaluation : Int) (positionKey : Nat)
    (rec : Int → Int → Nat → Node → SearchThread → ABResult)
    (acc : ABAcc) (move : Move) : ABAcc :=
  match acc with
  | .done r => .done r
  | .cont alpha bestScore bestMove legalMoves pv stA =>
    if env.isLegalMove board move = false then
      .cont alpha bestScore bestMove legalMoves pv stA
    else
      let legalMoves := legalMoves + 1
      let expectedNonPvNode := !isPvNode || decide (1 < legalMoves)
      -- 7) Futility Pruning
      if expectedNonPvNode && decide (depth < 4) && !checkers
          && !(env.isInteresting board move)
          && decide (getReverseFutilityPruningScore staticEvaluation depth ≤ alpha) then
        .cont alpha bestScore bestMove legalMoves pv stA
      else
        -- 8) Late Move Reductions
        let reductions := if 1 < legalMoves ∧ 1 < depth then 2 else 1
        let stB := { stA with ply := stA.ply + 1, board := env.makeMove board move }
        -- 9) Principal Variation Search
        let (score, childPv, stD) :=
          abPVS beta depth isPvNode expectedNonPvNode reductions alpha
            legalMoves rec stB
        abBookkeeping positionKey move depth staticEvaluation alpha beta
          bestScore bestMove legalMoves pv score childPv
          { stD with ply := stD.ply - 1, board := board }

/-- The tail of `alphaBeta` after the null-move block (source lines
163-221): reverse futility pruning, the move loop over `abStep`, terminal
detection (`legalMoves == 0`), and the final transposition-table store.
`alpha` doubles as `oldAlpha` of line 171 since the C code has not touched
it before the loop. -/
def abMainLoop (env : Env) (board : Board) (alpha beta : Int) (depth : Nat)
    (isPvNode checkers : Bool) (staticEvaluation : Int) (positionKey : Nat)
    (ttMove : Move)
    (rec : Int → Int → Nat → Node → SearchThread → ABResult)
    (st3 : SearchThread) : ABResult :=
  -- 5) Reverse Futility Pruning
  if !isPvNode && !checkers
      && decide (beta ≤ staticEvaluation - getRFPMargin depth) then
    ⟨staticEvaluation, [], st3⟩
  else
    -- 6) Move Ordering
    let moves := env.selectMoves board MoveSelectorState.TT_MOVE ttMove
    match moves.foldl
        (fun acc move =>
          abStep env board beta depth isPvNode checkers staticEvaluation
            positionKey rec acc move)
        (ABAcc.cont alpha (-INFINITE) NO_MOVE 0 [] st3) with
    | .done r => r
    | .cont _ bestScore bestMove legalMoves pv stA =>
      -- 10) Checkmate and Stalemate Detection
      let bestScore :=
        if legalMoves = 0 then
          if checkers then -CHECKMATE + (stA.ply : Int) else DRAW
        else bestScore
      let stB :=
        if stA.stop then stA
        else
          savePositionEvaluation stA positionKey bestMove depth
            (if alpha < bestScore then Bound.EXACT else Bound.UPPER)
            (adjustNodeScoreToTT
              (if bestScore = -INFINITE then staticEvaluation else bestScore)
              stA.ply)
            staticEvaluation
      ⟨bestScore, pv, stB⟩

/-- `alphaBeta` (source lines 113-222).  Fuel bounds the recursion depth of
the embedding (the C recursion terminates because `depth` shrinks and
quiescence chains are finite); fuel exhaustion returns `DRAW` with the
context untouched. -/
def alphaBeta (env : Env) : Nat → Int → Int → Nat → Node → SearchThread →
    ABResult
  | 0, _, _, _, _, st => ⟨DRAW, [], st⟩
  | fuel + 1, alpha, beta, depth, node, st0 =>
    -- line 114: sh->pv[0] = NO_MOVE; this node's PV buffer starts empty.
    -- 1) Quiescence Search
    if depth = 0 then
      let (s, st) := quiescenceSearch env (fuel + 1) alpha beta st0
      ⟨s, [], st⟩
    else
      let board := st0.board
      let st1 := { st0 with nodes := st0.nodes + 1 }
      -- 2) Draw Detection: `(node != ROOT && isDraw(board)) || outOfTime(st)`
      -- short-circuits, so the clock is not polled on a non-root draw.
      if node != Node.ROOT && env.isDraw board then ⟨DRAW, [], st1⟩
      else
        let (timeout, st2) := outOfTime env st1
        if timeout then ⟨DRAW, [], st2⟩
        else
          -- 3) Transposition Table
          let isPvNode := node != Node.NON_PV
          let positionKey := env.getPositionKey board
          let probe := ttLookup st2.tt positionKey
          match ttProbeDecision probe isPvNode depth st2.ply alpha beta with
          | (some s, _) => ⟨s, [], st2⟩
          | (none, ttMove) =>
            let checkers := env.getCheckers board
            let staticEvaluation : Int :=
              if checkers then -INFINITE
              else
                match probe with
                | some pe => pe.staticEvaluation
                | none => env.evaluation board
            -- 4) Null Move Pruning
            if !isPvNode && !checkers && decide (3 < depth)
                && decide (beta ≤ staticEvaluation)
                && env.hasNonPawnMaterial board then
              let stB :=
                { st2 with ply := st2.ply + 1, board := env.makeNullMove board }
              let r := alphaBeta env fuel (-beta) (-beta + 1) (depth - 4)
                Node.NON_PV stB
              let score := -r.score
              let stC := { r.state with ply := r.state.ply - 1, board := board }
              if beta ≤ score then ⟨score, [], stC⟩
              else
                abMainLoop env board alpha beta depth isPvNode checkers
                  staticEvaluation positionKey ttMove
                  (fun a b d nd s => alphaBeta env fuel a b d nd s) stC
            else
              abMainLoop env board alpha beta depth isPvNode checkers
                staticEvaluation positionKey ttMove
                (fun a b d nd s => alphaBeta env fuel a b d nd s) st2

/-- Output events of the driver: the `info` lines of `printSearch` (clock
derived fields omitted) and the final `bestmove` line, carrying the last
rendered PV (`none` models the never-written buffers). -/
inductive Output where
  | info (depth : Nat) (scoreType : String) (scoreValue : Int) (pv : List Move)
  | bestmove (pv : Option (List Move))
  deriving Repr, DecidableEq

/-- The loop state of `startSearch`: window, depth counter, context,
emitted output, and the content of the rendered PV buffers (`none` while
`pvToString` has never run). -/
structure IterState where
  alpha : Int
  beta : Int
  depth : Nat
  st : SearchThread
  out : List Output
  lastPV : Option (List Move)
  deriving Repr, DecidableEq

def ASPIRATION_WINDOW : Int := 25

/-- The aspiration-window bookkeeping after one root search (source lines
234-247 together with the `depth++` of the loop header).  `score` and `pv`
are the results of the `alphaBeta` call, already folded into `s.st`.  The
depth counter is a `uint8`, hence the `% 256` arithmetic: `depth--`
followed by `depth++` re-searches the same depth, and a depth accepted at
255 overflows to 0, ending the loop. -/
def aspirationUpdate (score : Int) (pv : List Move) (s : IterState) :
    IterState :=
  if s.alpha < score ∧ score < s.beta ∧ s.st.stop = false then
    { alpha := score - ASPIRATION_WINDOW,
      beta := score + ASPIRATION_WINDOW,
      depth := (s.depth + 1) % 256,
      st := { s.st with bestMove := ⟨pv.headD NO_MOVE, score⟩ },
      out := s.out ++
        (if s.st.print then
          [Output.info s.depth (printSearchScore score).1
            (printSearchScore score).2 pv]
         else []),
      lastPV := some pv }
  else
    { s with
      depth := ((s.depth + 255) % 256 + 1) % 256,
      alpha := if s.alpha < score then s.alpha else -INFINITE,
      beta := if score < s.beta then s.beta else INFINITE }

/-- The iterative-deepening loop of `startSearch` (source lines 232-248):
`for (depth = 1; depth && !outOfTime(st); depth++)`. -/
def searchLoop (env : Env) (nodeFuel : Nat) : Nat → IterState → IterState
  | 0, s => s
  | fuel + 1, s =>
    if s.depth = 0 then s
    else
      let (timeout, st1) := outOfTime env s.st
      if timeout then { s with st := st1 }
      else
        let r := alphaBeta env nodeFuel s.alpha s.beta s.depth Node.ROOT st1
        searchLoop env nodeFuel fuel
          (aspirationUpdate r.score r.pv { s with st := r.state })

/-- `startSearch` (source lines 224-254): the driver starts at depth 1 with
the full window and finally prints the `bestmove` line when `print` is
set.  The root result is published in `st.bestMove`. -/
def startSearch (env : Env) (loopFuel nodeFuel : Nat) (st : SearchThread) :
    IterState :=
  let s := searchLoop env nodeFuel loopFuel
    ⟨-INFINITE, INFINITE, 1, st, [], none⟩
  { s with
    out := s.out ++ (if s.st.print then [Output.bestmove s.lastPV] else []) }

/-! ## Training driver (`search.h` lines 79-165) -/

/-- One recorded training position: the score (already flipped to White's
perspective) and the FEN of the position. -/
structure GameData where
  score : Int
  fen : String
  deriving Repr, DecidableEq

/-- The game outcome written next to every line: in the C code the doubles
`1.0` (White won), `0.5` (draw) and `0.0` (Black won). -/
inductive Outcome where
  | whiteWin
  | draw
  | blackWin
  deriving Repr, DecidableEq

abbrev TrainingLine := String × Int × Outcome

/-- `isCheckmate` (`search.h` line 110). -/
def isCheckmate (score : Int) : Bool :=
  decide (score ≤ -GUARANTEE_CHECKMATE) || decide (GUARANTEE_CHECKMATE ≤ score)

/-- `isStalemate` (`search.h` line 114): `score == DRAW && !bestMove`. -/
def isStalemate (score : Int) (bestMove : Move) : Bool :=
  score == DRAW && bestMove == NO_MOVE

/-- `isEndOfGame` (`search.h` line 118). -/
def isEndOfGame (env : Env) (board : Board) (mo : MoveObject) : Bool :=
  isCheckmate mo.score || isStalemate mo.score mo.move || env.isDraw board

/-- The truthy colour: `board->sideToMove` is nonzero exactly for Black. -/
def BLACK : Bool := true

/-- `createGameData` (`search.h` line 86): the score parameter is relative
to the side to move and is stored from White's perspective; the FEN is
taken from the board as passed in. -/
def createGameData (env : Env) (board : Board) (score : Int) : GameData :=
  { score := if env.sideToMove board then -score else score,
    fen := env.getFEN board }

/-- `writeGameData` (`search.h` line 93): one `"<fen> | <score> | <outcome>"`
line per chain node, most recent first (the chain is traversed through the
`prev` links; the dummy tail is the empty list). -/
def writeGameData (chain : List GameData) (outcome : Outcome) :
    List TrainingLine :=
  chain.map fun g => (g.fen, g.score, outcome)

/-- Ghost observation of one `playGame` step: the position searched (before
the best move is played) and the search result for it. -/
structure PlayEvent where
  board : Board
  result : MoveObject
  deriving Repr, DecidableEq

/-- `playGame` (`search.h` lines 144-165), with fuel for the self-play
recursion.  Returns the per-position events (ghost) and, when the game
ends within the fuel, the outcome together with the written training
lines. -/
def playGame (env : Env) (loopFuel nodeFuel : Nat) :
    Nat → SearchThread → List GameData →
    List PlayEvent × Option (Outcome × List TrainingLine)
  | 0, _, _ => ([], none)
  | fuel + 1, st, previous =>
    let res := startSearch env loopFuel nodeFuel st
    let st1 := res.st
    let bestMove := st1.bestMove
    let board := st1.board
    let previous' :=
      if !(env.getCheckers board) && !(isCheckmate bestMove.score)
          && !(env.insufficientMaterial board) then
        createGameData env board bestMove.score :: previous
      else previous
    let ev : PlayEvent := ⟨board, bestMove⟩
    if isEndOfGame env board bestMove then
      let outcome :=
        if isCheckmate bestMove.score then
          if (if 0 < bestMove.score then env.sideToMove board
              else !(env.sideToMove board)) then
            Outcome.blackWin
          else Outcome.whiteWin
        else Outcome.draw
      ([ev], some (outcome, writeGameData previous' outcome))
    else
      let st2 := { st1 with board := env.makeMove board bestMove.move }
      let (evs, r) := playGame env loopFuel nodeFuel fuel st2 previous'
      (ev :: evs, r)

/-- The training-record filter and content in the words of the
specification (claim-side definition, to be compared with `playGame`):
record a searched position only if the side to move is not in check, the
score is not a mate score, and material is sufficient; the recorded score
is negated for Black, and the FEN is that of the searched position. -/
def specTrainingRecord (env : Env) (board : Board) (mo : MoveObject) :
    Option GameData :=
  if env.getCheckers board = false ∧ |mo.score| < GUARANTEE_CHECKMATE
      ∧ env.insufficientMaterial board = false then
    some { score := if env.sideToMove board = BLACK then -mo.score else mo.score,
           fen := env.getFEN board }
  else none

/-! ## Concrete environments and contexts used by the witnesses -/

/-- A minimal environment: a single stalemated position (no pseudo-legal
move is legal, no check, no draw) and a clock that never expires. -/
def env0 : Env where
  isDraw := fun _ => false
  getCheckers := fun _ => false
  evaluation := fun _ => 0
  getPositionKey := fun _ => 0
  isLegalMove := fun _ _ => false
  makeMove := fun b _ => b
  makeNullMove := fun b => b
  hasNonPawnMaterial := fun _ => false
  isInteresting := fun _ _ => false
  selectMoves := fun _ _ _ => []
  timeOut := fun _ => false
  sideToMove := fun _ => false
  getFEN := fun _ => "8/8/8/8/8/8/8/8 w - - 0 1"
  insufficientMaterial := fun _ => false

/-- `env0` with a clock whose budget is already exhausted at the first
poll. -/
def envT : Env := { env0 with timeOut := fun _ => true }

/-- `env0` where every position is an immediate draw. -/
def envD : Env := { env0 with isDraw := fun _ => true }

/-- `env0` with the side to move in check: a checkmated position. -/
def envW : Env := { env0 with getCheckers := fun _ => true }

/-- A transposition table entry used by the TT-cutoff witness. -/
def peC2 : PositionEvaluation :=
  { bestMove := 7, depth := 5, bound := Bound.LOWER,
    nodeScore := 100, staticEvaluation := 40 }

/-- `env0` with `peC2` pre-stored for the root key. -/
def stC2 : SearchThread :=
  { board := 0, tt := [(0, peC2)], nodes := 0, bestMove := ⟨0, 0⟩, ply := 0,
    print := false, stop := false, pollCount := 0, writeLog := [] }

/-- A fresh search context as `createSearchThread` produces it. -/
def st0 : SearchThread :=
  { board := 0, tt := [], nodes := 0, bestMove := ⟨0, 0⟩, ply := 0,
    print := true, stop := false, pollCount := 0, writeLog := [] }

/-- `st0` without printing, as the training driver configures it. -/
def stTrain : SearchThread := { st0 with print := false }

/-! ## Invariant predicates used by the development -/

/-- The context fields `quiescenceSearch` leaves untouched — everything
except the node counter. -/
def FrameQ (st st' : SearchThread) : Prop :=
  st'.board = st.board ∧ st'.tt = st.tt ∧ st'.bestMove = st.bestMove ∧
  st'.ply = st.ply ∧ st'.print = st.print ∧ st'.stop = st.stop ∧
  st'.pollCount = st.pollCount ∧ st'.writeLog = st.writeLog

/-- What any `alphaBeta` call guarantees about the context: board,
published best move, print flag and ply are restored; the poll counter
never shrinks; and every write-log entry that is new was recorded with the
stop flag false. -/
def FrameAB (st st' : SearchThread) : Prop :=
  st'.board = st.board ∧ st'.bestMove = st.bestMove ∧ st'.print = st.print ∧
  st'.ply = st.ply ∧ st.pollCount ≤ st'.pollCount ∧
  ∀ w ∈ st'.writeLog, w ∈ st.writeLog ∨ w.stopFlag = false

/-- `FrameQ` lifted to the quiescence loop accumulator. -/
def QAccFrame (st : SearchThread) : QAcc → Prop
  | .done _ stA => FrameQ st stA
  | .cont _ _ stA => FrameQ st stA

/-- `FrameAB` lifted to the alpha-beta loop accumulator. -/
def ABAccFrame (st : SearchThread) : ABAcc → Prop
  | .done r => FrameAB st r.state
  | .cont _ _ _ _ _ stA => FrameAB st stA

/-! ## Frame lemmas -/

theorem foldl_preserve {α β : Type} (P : α → Prop) (f : α → β → α)
    (hf : ∀ a b, P a → P (f a b)) :
    ∀ (l : List β) (a : α), P a → P (l.foldl f a) := by
  intro l
  induction l with
  | nil => intro a h; exact h
  | cons x xs ih => intro a h; exact ih _ (hf _ _ h)

theorem frameQ_refl (st : SearchThread) : FrameQ st st := by
  simp [FrameQ]

theorem frameAB_refl (st : SearchThread) : FrameAB st st := by
  refine ⟨rfl, rfl, rfl, rfl, le_refl _, fun w hw => Or.inl hw⟩

theorem frameAB_trans {a b c : SearchThread} (h1 : FrameAB a b)
    (h2 : FrameAB b c) : FrameAB a c := by
  obtain ⟨e1, e2, e3, e4, e5, e6⟩ := h1
  obtain ⟨f1, f2, f3, f4, f5, f6⟩ := h2
  refine ⟨by rw [f1, e1], by rw [f2, e2], by rw [f3, e3], by rw [f4, e4],
    le_trans e5 f5, ?_⟩
  intro w hw
  rcases f6 w hw with h | h
  · exact e6 w h
  · exact Or.inr h

theorem frameQ_frameAB {a b : SearchThread} (h : FrameQ a b) : FrameAB a b := by
  obtain ⟨e1, e2, e3, e4, e5, e6, e7, e8⟩ := h
  exact ⟨e1, e3, e5, e4, le_of_eq e7.symm, fun w hw => Or.inl (e8 ▸ hw)⟩

theorem qsStep_frame (env : Env) (beta : Int)
    (rec : Int → Int → SearchThread → Int × SearchThread)
    (hrec : ∀ a b s, FrameQ s (rec a b s).2)
    (st : SearchThread) (acc : QAcc) (move : Move)
    (h : QAccFrame st acc) :
    QAccFrame st (qsStep env st.board beta rec acc move) := by
  cases acc with
  | done s stA => simpa [qsStep, QAccFrame] using h
  | cont alpha bestScore stA =>
    simp only [QAccFrame] at h
    simp only [qsStep]
    split
    · exact h
    · have hr := hrec (-beta) (-alpha)
        { stA with ply := stA.ply + 1, board := env.makeMove st.board move }
      rcases hpair : rec (-beta) (-alpha)
          { stA with ply := stA.ply + 1, board := env.makeMove st.board move }
        with ⟨cs, stC⟩
      rw [hpair] at hr
      obtain ⟨f1, f2, f3, f4, f5, f6, f7, f8⟩ := hr
      obtain ⟨e1, e2, e3, e4, e5, e6, e7, e8⟩ := h
      simp only at f1 f2 f3 f4 f5 f6 f7 f8
      have hd : FrameQ st { stC with ply := stC.ply - 1, board := st.board } := by
        refine ⟨rfl, by rw [f2, e2], by rw [f3, e3], ?_, by rw [f5, e5],
          by rw [f6, e6], by rw [f7, e7], by rw [f8, e8]⟩
        simp only [f4]
        omega
      simp only [hpair]
      split <;> [skip; exact hd] <;> split <;> [skip; exact hd] <;>
        split <;> exact hd


theorem quiescence_frame (env : Env) :
    ∀ (fuel : Nat) (alpha beta : Int) (st : SearchThread),
      FrameQ st (quiescenceSearch env fuel alpha beta st).2 := by
  intro fuel
  induction fuel with
  | zero => intro alpha beta st; exact frameQ_refl st
  | succ n ih =>
    intro alpha beta st
    have hst : FrameQ st { st with nodes := st.nodes + 1 } := by
      refine ⟨rfl, rfl, rfl, rfl, rfl, rfl, rfl, rfl⟩
    have hloop : ∀ (a : Int) (checkers : Bool) (bs : Int),
        FrameQ st (qsMainLoop env st.board beta checkers bs
          (fun a b s => quiescenceSearch env n a b s) a
          { st with nodes := st.nodes + 1 }).2 := by
      intro a checkers bs
      simp only [qsMainLoop]
      have hfold := foldl_preserve (QAccFrame st)
        (fun acc move => qsStep env st.board beta
          (fun a b s => quiescenceSearch env n a b s) acc move)
        (fun acc move hacc =>
          qsStep_frame env beta _ (fun a b s => ih a b s) st acc move hacc)
        (env.selectMoves st.board
          (if checkers then MoveSelectorState.TT_MOVE
           else MoveSelectorState.GET_NON_CAPTURE_MOVES) NO_MOVE)
        (QAcc.cont a bs { st with nodes := st.nodes + 1 }) hst
      rcases hm : List.foldl _ (QAcc.cont a bs { st with nodes := st.nodes + 1 }) _
        with _ | _
      · rw [hm] at hfold; exact hfold
      · rw [hm] at hfold; exact hfold
    simp only [quiescenceSearch]
    split
    · exact hst
    · split <;> split <;> (try split) <;>
        first | exact hst | exact hloop _ _ _

theorem savePE_frame {st stE : SearchThread} (h : FrameAB st stE)
    (hstop : stE.stop = false) (k : Nat) (m : Move) (d : Nat) (b : Bound)
    (ns se : Int) :
    FrameAB st (savePositionEvaluation stE k m d b ns se) := by
  obtain ⟨e1, e2, e3, e4, e5, e6⟩ := h
  refine ⟨e1, e2, e3, e4, e5, ?_⟩
  intro w hw
  simp only [savePositionEvaluation, List.mem_cons] at hw
  rcases hw with rfl | hw
  · exact Or.inr (by simpa using hstop)
  · exact e6 w hw

theorem undo_frame {st stA stD : SearchThread} (b : Board)
    (hA : FrameAB st stA)
    (hD : FrameAB { stA with ply := stA.ply + 1, board := b } stD) :
    FrameAB st { stD with ply := stD.ply - 1, board := st.board } := by
  obtain ⟨e1, e2, e3, e4, e5, e6⟩ := hA
  obtain ⟨f1, f2, f3, f4, f5, f6⟩ := hD
  simp only at f1 f2 f3 f4 f5 f6
  refine ⟨rfl, by simpa [f2] using e2, by simpa [f3] using e3, ?_, ?_, ?_⟩
  · simp only [f4]
    omega
  · simpa using le_trans e5 f5
  · intro w hw
    simp only at hw
    rcases f6 w hw with h | h
    · exact e6 w h
    · exact Or.inr h

theorem abBookkeeping_frame {st stE : SearchThread} (hE : FrameAB st stE)
    (positionKey : Nat) (move : Move) (depth : Nat) (staticEvaluation : Int)
    (alpha beta bestScore : Int) (bestMove : Move) (legalMoves : Nat)
    (pv : List Move) (score : Int) (childPv : List Move) :
    ABAccFrame st (abBookkeeping positionKey move depth staticEvaluation
      alpha beta bestScore bestMove legalMoves pv score childPv stE) := by
  simp only [abBookkeeping]
  split
  · split
    · split
      · simp only [ABAccFrame]
        split
        · exact hE
        · next hstop => exact savePE_frame hE (by simpa using hstop) _ _ _ _ _ _
      · exact hE
    · exact hE
  · exact hE

theorem abPVS_frame (beta : Int) (depth : Nat)
    (isPvNode expectedNonPvNode : Bool) (reductions : Nat) (alpha : Int)
    (legalMoves : Nat)
    (rec : Int → Int → Nat → Node → SearchThread → ABResult)
    (hrec : ∀ a b d nd s, FrameAB s (rec a b d nd s).state)
    (stB : SearchThread) :
    FrameAB stB (abPVS beta depth isPvNode expectedNonPvNode reductions
      alpha legalMoves rec stB).2.2 := by
  simp only [abPVS]
  cases expectedNonPvNode with
  | false =>
    simp only [Bool.false_eq_true, if_false]
    split
    · exact frameAB_trans (frameAB_refl _) (hrec _ _ _ _ _)
    · exact frameAB_refl _
  | true =>
    simp only [if_true]
    split
    · exact frameAB_trans (hrec _ _ _ _ _) (hrec _ _ _ _ _)
    · exact hrec _ _ _ _ _

theorem abStep_frame (env : Env) (beta : Int) (depth : Nat)
    (isPvNode checkers : Bool) (staticEvaluation : Int) (positionKey : Nat)
    (rec : Int → Int → Nat → Node → SearchThread → ABResult)
    (hrec : ∀ a b d nd s, FrameAB s (rec a b d nd s).state)
    (st : SearchThread) (acc : ABAcc) (move : Move)
    (h : ABAccFrame st acc) :
    ABAccFrame st (abStep env st.board beta depth isPvNode checkers
      staticEvaluation positionKey rec acc move) := by
  cases acc with
  | done r => simpa [abStep, ABAccFrame] using h
  | cont alpha bestScore bestMove legalMoves pv stA =>
    simp only [ABAccFrame] at h
    simp only [abStep]
    split
    · exact h
    · split
      · exact h
      · exact abBookkeeping_frame
          (undo_frame (env.makeMove st.board move) h
            (abPVS_frame _ _ _ _ _ _ _ rec hrec _)) _ _ _ _ _ _ _ _ _ _ _ _

theorem abMainLoop_frame (env : Env) (alpha beta : Int) (depth : Nat)
    (isPvNode checkers : Bool) (staticEvaluation : Int) (positionKey : Nat)
    (ttMove : Move)
    (rec : Int → Int → Nat → Node → SearchThread → ABResult)
    (hrec : ∀ a b d nd s, FrameAB s (rec a b d nd s).state)
    (st st3 : SearchThread) (h3 : FrameAB st st3) :
    FrameAB st (abMainLoop env st.board alpha beta depth isPvNode checkers
      staticEvaluation positionKey ttMove rec st3).state := by
  simp only [abMainLoop]
  split
  · exact h3
  · have hfold := foldl_preserve (ABAccFrame st)
      (fun acc move => abStep env st.board beta depth isPvNode checkers
        staticEvaluation positionKey rec acc move)
      (fun acc move hacc => abStep_frame env beta depth isPvNode checkers
        staticEvaluation positionKey rec hrec st acc move hacc)
      (env.selectMoves st.board MoveSelectorState.TT_MOVE ttMove)
      (ABAcc.cont alpha (-INFINITE) NO_MOVE 0 [] st3) h3
    rcases hm : List.foldl _ (ABAcc.cont alpha (-INFINITE) NO_MOVE 0 [] st3) _
      with r | ⟨a, bs, bm, lm, pvA, stA⟩ <;> rw [hm] at hfold
    · exact hfold
    · simp only [ABAccFrame] at hfold
      simp only
      split
      · exact hfold
      · next hstop => exact savePE_frame hfold (by simpa using hstop) _ _ _ _ _ _

theorem alphaBeta_frame (env : Env) :
    ∀ (fuel : Nat) (alpha beta : Int) (depth : Nat) (node : Node)
      (st : SearchThread),
      FrameAB st (alphaBeta env fuel alpha beta depth node st).state := by
  intro fuel
  induction fuel with
  | zero => intro alpha beta depth node st; exact frameAB_refl st
  | succ n ih =>
    intro alpha beta depth node st
    simp only [alphaBeta]
    split
    · exact frameQ_frameAB (quiescence_frame env (n + 1) alpha beta st)
    · have h1 : FrameAB st { st with nodes := st.nodes + 1 } :=
        ⟨rfl, rfl, rfl, rfl, le_refl _, fun w hw => Or.inl hw⟩
      split
      · exact h1
      · have h2 : FrameAB st
            ((outOfTime env { st with nodes := st.nodes + 1 }).2) := by
          refine ⟨rfl, rfl, rfl, rfl, ?_, fun w hw => Or.inl hw⟩
          simp [outOfTime]
        repeat' split
        all_goals
          first
            | exact h1
            | exact h2
            | exact undo_frame (env.makeNullMove st.board) h2 (ih _ _ _ _ _)
            | exact abMainLoop_frame env _ _ _ _ _ _ _ _ _
                (fun a b d nd s => ih a b d nd s) st _ h2
            | exact abMainLoop_frame env _ _ _ _ _ _ _ _ _
                (fun a b d nd s => ih a b d nd s) st _
                (undo_frame (env.makeNullMove st.board) h2 (ih _ _ _ _ _))

/-! ## Claim theorems -/

/-- Claim C8: for every call to `alphaBeta` or `quiescenceSearch`, on every
return path (TT cutoff, draw/timeout return, stand-pat cutoff, null-move
cutoff, reverse-futility return, beta cutoff inside the move loop, and
normal exit), `ctx.ply` at return equals `ctx.ply` at entry: every
increment of `ply` around a recursive descent is matched by a decrement
before any return. -/
theorem ply_restored_on_return :
    (∀ (env : Env) (fuel : Nat) (alpha beta : Int) (st : SearchThread),
      (quiescenceSearch env fuel alpha beta st).2.ply = st.ply) ∧
    (∀ (env : Env) (fuel : Nat) (alpha beta : Int) (depth : Nat)
      (node : Node) (st : SearchThread),
      (alphaBeta env fuel alpha beta depth node st).state.ply = st.ply) :=
  ⟨fun env fuel alpha beta st =>
    (quiescence_frame env fuel alpha beta st).2.2.2.1,
   fun env fuel alpha beta depth node st =>
    (alphaBeta_frame env fuel alpha beta depth node st).2.2.2.1⟩

/-- Claim C3: no transposition-table write ever occurs while `ctx.stop` is
true, and `quiescenceSearch` performs no transposition-table writes at
all: every store recorded in the (ghost) write log by `alphaBeta` that was
not already present at entry carries `stopFlag = false`, and the log is
untouched by quiescence. -/
theorem tt_writes_guarded_by_stop :
    (∀ (env : Env) (fuel : Nat) (alpha beta : Int) (st : SearchThread),
      (quiescenceSearch env fuel alpha beta st).2.writeLog = st.writeLog) ∧
    (∀ (env : Env) (fuel : Nat) (alpha beta : Int) (depth : Nat)
      (node : Node) (st : SearchThread) (w : TTWrite),
      w ∈ (alphaBeta env fuel alpha beta depth node st).state.writeLog →
      w ∈ st.writeLog ∨ w.stopFlag = false) :=
  ⟨fun env fuel alpha beta st =>
    (quiescence_frame env fuel alpha beta st).2.2.2.2.2.2.2,
   fun env fuel alpha beta depth node st w hw =>
    (alphaBeta_frame env fuel alpha beta depth node st).2.2.2.2.2 w hw⟩

theorem tt_writes_guarded_by_stop_witness :
    ((⟨0, 0, 1, Bound.EXACT, 0, 0, false⟩ : TTWrite) ∈
      (alphaBeta env0 3 (-INFINITE) INFINITE 1 Node.ROOT st0).state.writeLog) ∧
    ((⟨0, 0, 1, Bound.EXACT, 0, 0, false⟩ : TTWrite) ∈ st0.writeLog ∨
      (⟨0, 0, 1, Bound.EXACT, 0, 0, false⟩ : TTWrite).stopFlag = false) :=
  ⟨by decide,
   tt_writes_guarded_by_stop.2 env0 3 (-INFINITE) INFINITE 1 Node.ROOT st0
     ⟨0, 0, 1, Bound.EXACT, 0, 0, false⟩ (by decide)⟩

theorem pollCount_le_alphaBeta (env : Env) (fuel : Nat) (a b : Int)
    (d : Nat) (nd : Node) (stB : SearchThread) (x : Nat)
    (hx : x ≤ stB.pollCount) :
    x ≤ (alphaBeta env fuel a b d nd stB).state.pollCount :=
  le_trans hx (alphaBeta_frame env fuel a b d nd stB).2.2.2.2.1

theorem pollCount_le_abMainLoop (env : Env) (a b : Int) (d : Nat)
    (pv ck : Bool) (se : Int) (pk : Nat) (tm : Move) (fuel : Nat)
    (st3 : SearchThread) (x : Nat) (hx : x ≤ st3.pollCount) :
    x ≤ (abMainLoop env st3.board a b d pv ck se pk tm
      (fun a b d nd s => alphaBeta env fuel a b d nd s) st3).state.pollCount :=
  le_trans hx (abMainLoop_frame env a b d pv ck se pk tm _
    (fun a b d nd s => alphaBeta_frame env fuel a b d nd s) st3 st3
    (frameAB_refl st3)).2.2.2.2.1

/-- Claim C6, counterexample: a quiescence node is counted (`ctx.nodes` is
incremented) without any `outOfTime` poll: on `env0` from `st0`,
quiescence counts one node while the poll counter stays at zero, so the
stop flag is not polled at every counted node. -/
theorem quiescence_counts_node_without_poll :
    (quiescenceSearch env0 3 (-100) 100 st0).2.nodes = st0.nodes + 1 ∧
    (quiescenceSearch env0 3 (-100) 100 st0).2.pollCount = st0.pollCount ∧
    st0.nodes = 0 ∧ st0.pollCount = 0 := by
  decide

/-- Claim C6, amended: `quiescenceSearch` never polls `outOfTime`;
`alphaBeta` polls it at least once at every counted node except when the
non-root draw test short-circuits the poll (in which case no poll is
performed at that node). -/
theorem poll_discipline :
    (∀ (env : Env) (fuel : Nat) (alpha beta : Int) (st : SearchThread),
      (quiescenceSearch env fuel alpha beta st).2.pollCount = st.pollCount) ∧
    (∀ (env : Env) (fuel : Nat) (alpha beta : Int) (depth : Nat)
      (node : Node) (st : SearchThread), 1 ≤ depth →
      (node != Node.ROOT && env.isDraw st.board) = false →
      st.pollCount + 1 ≤
        (alphaBeta env (fuel + 1) alpha beta depth node st).state.pollCount) ∧
    (∀ (env : Env) (fuel : Nat) (alpha beta : Int) (depth : Nat)
      (node : Node) (st : SearchThread), 1 ≤ depth →
      (node != Node.ROOT && env.isDraw st.board) = true →
      (alphaBeta env (fuel + 1) alpha beta depth node st).state.pollCount =
        st.pollCount) := by
  refine ⟨fun env fuel alpha beta st =>
    (quiescence_frame env fuel alpha beta st).2.2.2.2.2.2.1, ?_, ?_⟩
  · intro env fuel alpha beta depth node st hd hdraw
    simp only [alphaBeta]
    rw [if_neg (by omega)]
    rw [if_neg (by simp [hdraw])]
    repeat' split
    all_goals
      first
        | exact le_refl _
        | (apply pollCount_le_alphaBeta; exact le_refl _)
        | (apply pollCount_le_abMainLoop; exact le_refl _)
        | (apply pollCount_le_abMainLoop; apply pollCount_le_alphaBeta; exact le_refl _)
  · intro env fuel alpha beta depth node st hd hdraw
    simp only [alphaBeta]
    rw [if_neg (by omega)]
    rw [if_pos (by simp_all)]

theorem poll_discipline_witness :
    ((1 : Nat) ≤ 1 ∧ ((Node.PV != Node.ROOT && env0.isDraw st0.board) = false) ∧
      st0.pollCount + 1 ≤
        (alphaBeta env0 3 (-INFINITE) INFINITE 1 Node.PV st0).state.pollCount) ∧
    ((1 : Nat) ≤ 1 ∧ ((Node.PV != Node.ROOT && envD.isDraw st0.board) = true) ∧
      (alphaBeta envD 3 (-INFINITE) INFINITE 1 Node.PV st0).state.pollCount =
        st0.pollCount) :=
  ⟨⟨by decide, by decide,
    poll_discipline.2.1 env0 2 (-INFINITE) INFINITE 1 Node.PV st0
      (by decide) (by decide)⟩,
   ⟨by decide, by decide,
    poll_discipline.2.2 envD 2 (-INFINITE) INFINITE 1 Node.PV st0
      (by decide) (by decide)⟩⟩

/-- Claim C2: a transposition-table hit causes an early return in
`alphaBeta` only when the node is NonPV and the stored entry depth is at
least the remaining depth, and then only if the stored bound is Exact, or
Lower with the ply-adjusted stored score at least beta, or Upper with the
ply-adjusted stored score at most alpha; the returned value is the
ply-adjusted stored score, and in every other hit case the decision
carries the entry's best move as the TT-move hint for the move selector. -/
theorem tt_cutoff_characterization :
    (∀ (pe : PositionEvaluation) (isPvNode : Bool) (depth ply : Nat)
      (alpha beta : Int),
      ((ttProbeDecision (some pe) isPvNode depth ply alpha beta).1 ≠ none ↔
        (isPvNode = false ∧ depth ≤ pe.depth ∧
          (pe.bound = Bound.EXACT ∨
            (pe.bound = Bound.LOWER ∧
              beta ≤ adjustNodeScoreFromTT pe.nodeScore ply) ∨
            (pe.bound = Bound.UPPER ∧
              adjustNodeScoreFromTT pe.nodeScore ply ≤ alpha)))) ∧
      (∀ s : Int,
        (ttProbeDecision (some pe) isPvNode depth ply alpha beta).1 = some s →
        s = adjustNodeScoreFromTT pe.nodeScore ply) ∧
      (ttProbeDecision (some pe) isPvNode depth ply alpha beta).2 =
        pe.bestMove) ∧
    (∀ (env : Env) (fuel : Nat) (alpha beta : Int) (depth : Nat) (node : Node)
      (st : SearchThread) (pe : PositionEvaluation) (s : Int),
      1 ≤ depth →
      (node != Node.ROOT && env.isDraw st.board) = false →
      env.timeOut st.pollCount = false →
      ttLookup st.tt (env.getPositionKey st.board) = some pe →
      (ttProbeDecision (some pe) (node != Node.NON_PV) depth st.ply
        alpha beta).1 = some s →
      alphaBeta env (fuel + 1) alpha beta depth node st =
        ⟨s, [],
          { st with
            nodes := st.nodes + 1
            stop := false
            pollCount := st.pollCount + 1 }⟩) := by
  constructor
  · intro pe isPvNode depth ply alpha beta
    refine ⟨?_, ?_, rfl⟩
    · rcases hb : pe.bound with _ | _ | _ <;> cases isPvNode <;>
        by_cases hd : depth ≤ pe.depth <;>
        by_cases h1 : beta ≤ adjustNodeScoreFromTT pe.nodeScore ply <;>
        by_cases h2 : adjustNodeScoreFromTT pe.nodeScore ply ≤ alpha <;>
        simp [ttProbeDecision, hb, hd, h1, h2] <;> decide
    · intro s h
      simp only [ttProbeDecision] at h
      split_ifs at h <;> simp_all
  · intro env fuel alpha beta depth node st pe s hd hdraw htime hprobe hcut
    rcases hpair : ttProbeDecision (some pe) (node != Node.NON_PV) depth
        st.ply alpha beta with ⟨c, tm⟩
    rw [hpair] at hcut
    simp only at hcut
    subst hcut
    simp only [alphaBeta]
    rw [if_neg (by omega)]
    rw [if_neg (by simp [hdraw])]
    rw [if_neg (by simp [outOfTime, htime])]
    simp only [outOfTime]
    simp only [hprobe, hpair, htime]

theorem tt_cutoff_characterization_witness :
    ((100 : Int) = adjustNodeScoreFromTT peC2.nodeScore 0) ∧
    alphaBeta env0 3 (-200) 50 1 Node.NON_PV stC2 =
      ⟨100, [],
        { stC2 with
          nodes := stC2.nodes + 1
          stop := false
          pollCount := stC2.pollCount + 1 }⟩ :=
  ⟨(tt_cutoff_characterization.1 peC2 false 1 0 (-200) 50).2.1 100 (by decide),
   tt_cutoff_characterization.2 env0 2 (-200) 50 1 Node.NON_PV stC2 peC2 100
     (by decide) (by decide) (by decide) (by decide) (by decide)⟩

theorem int_tdiv_two_as_fdiv (n : Int) (h : n ≤ 0) :
    Int.tdiv n 2 = Int.fdiv (n + 1) 2 := by
  rw [Int.fdiv_eq_ediv _ (by norm_num)]
  rw [show n = -(-n) by ring, Int.neg_tdiv,
    Int.tdiv_eq_ediv (by omega) (by norm_num)]
  omega

/-- Claim C4: for every score `s` in the search range (`|s| ≤ CHECKMATE`),
`printSearch` renders the score as `mate` with the sign-preserving value
`(±CHECKMATE − s + 1) / 2` (floor division) exactly when
`|s| ≥ GUARANTEE_CHECKMATE`, and as `cp` with the raw score otherwise. -/
theorem mate_score_rendering (s : Int) (hlo : -CHECKMATE ≤ s)
    (hhi : s ≤ CHECKMATE) :
    (GUARANTEE_CHECKMATE ≤ |s| → printSearchScore s = ("mate", specMateValue s)) ∧
    (|s| < GUARANTEE_CHECKMATE → printSearchScore s = ("cp", s)) := by
  constructor
  · intro hmate
    rcases abs_cases s with ⟨habs, hpos⟩ | ⟨habs, hneg⟩
    · have hge : GUARANTEE_CHECKMATE ≤ s := by omega
      have h0 : 0 < s := by
        have : (0 : Int) < GUARANTEE_CHECKMATE := by decide
        omega
      simp only [printSearchScore, specMateValue, if_pos (Or.inl hge),
        if_pos hge, if_pos h0]
      have harg : (0 : Int) ≤ CHECKMATE - s := by omega
      rw [Int.tdiv_eq_ediv (by omega) (by norm_num),
        Int.fdiv_eq_ediv _ (by norm_num)]
    · have hle : s ≤ -GUARANTEE_CHECKMATE := by omega
      have hnp : ¬GUARANTEE_CHECKMATE ≤ s := by
        have : (0 : Int) < GUARANTEE_CHECKMATE := by decide
        omega
      have h0 : ¬0 < s := by
        have : (0 : Int) < GUARANTEE_CHECKMATE := by decide
        omega
      simp only [printSearchScore, specMateValue, if_pos (Or.inr hle),
        if_neg hnp, if_pos hle, if_neg h0]
      rw [int_tdiv_two_as_fdiv (-CHECKMATE - s) (by omega)]
  · intro hcp
    have h1 : ¬GUARANTEE_CHECKMATE ≤ s := by
      rcases abs_cases s with ⟨habs, _⟩ | ⟨habs, _⟩ <;> omega
    have h2 : ¬s ≤ -GUARANTEE_CHECKMATE := by
      rcases abs_cases s with ⟨habs, _⟩ | ⟨habs, _⟩ <;> omega
    simp [printSearchScore, h1, h2]

theorem mate_score_rendering_witness :
    (-CHECKMATE ≤ (-31998 : Int) ∧ (-31998 : Int) ≤ CHECKMATE ∧
      GUARANTEE_CHECKMATE ≤ |(-31998 : Int)|) ∧
    printSearchScore (-31998) = ("mate", -1) := by
  refine ⟨⟨by decide, by decide, by decide⟩, ?_⟩
  have h := (mate_score_rendering (-31998) (by decide) (by decide)).1 (by decide)
  rw [h]
  decide

/-- Claim C1: the iterative-deepening driver starts the aspiration windows
at `[-INFINITE, +INFINITE]` at depth 1; an iteration's result is accepted
(root best move and score committed, PV rendered into `lastPV`, info line
printed when `print` is set) if and only if the returned score lies
strictly inside `(alpha, beta)` and the stop flag is unset, and on
acceptance the next window is `[s - 25, s + 25]` and the depth advances;
otherwise the same depth is re-searched with the exceeded bound reset to
the corresponding infinity while the bound that held is kept, with
nothing committed or printed. -/
theorem aspiration_window_driver :
    (∀ (env : Env) (loopFuel nodeFuel : Nat) (st : SearchThread),
      startSearch env loopFuel nodeFuel st =
        (let s := searchLoop env nodeFuel loopFuel
          ⟨-INFINITE, INFINITE, 1, st, [], none⟩
         { s with out := s.out ++
            (if s.st.print then [Output.bestmove s.lastPV] else []) })) ∧
    (∀ (score : Int) (pv : List Move) (s : IterState),
      s.alpha < score → score < s.beta → s.st.stop = false →
      aspirationUpdate score pv s =
        { alpha := score - 25
          beta := score + 25
          depth := (s.depth + 1) % 256
          st := { s.st with bestMove := ⟨pv.headD NO_MOVE, score⟩ }
          out := s.out ++
            (if s.st.print then
              [Output.info s.depth (printSearchScore score).1
                (printSearchScore score).2 pv]
            else [])
          lastPV := some pv }) ∧
    (∀ (score : Int) (pv : List Move) (s : IterState),
      1 ≤ s.depth → s.depth ≤ 255 →
      ¬(s.alpha < score ∧ score < s.beta ∧ s.st.stop = false) →
      aspirationUpdate score pv s =
        { s with
          depth := s.depth
          alpha := if s.alpha < score then s.alpha else -INFINITE
          beta := if score < s.beta then s.beta else INFINITE }) := by
  refine ⟨fun env lf nf st => rfl, ?_, ?_⟩
  · intro score pv s h1 h2 h3
    rw [aspirationUpdate, if_pos ⟨h1, h2, h3⟩]
    rfl
  · intro score pv s hd1 hd2 hcond
    rw [aspirationUpdate, if_neg hcond]
    simp only [IterState.mk.injEq, and_true, true_and]
    omega

theorem aspiration_window_driver_witness :
    (aspirationUpdate 7 [5] ⟨-INFINITE, INFINITE, 1, st0, [], none⟩ =
      { alpha := -18
        beta := 32
        depth := 2
        st := { st0 with bestMove := ⟨5, 7⟩ }
        out := [Output.info 1 "cp" 7 [5]]
        lastPV := some [5] }) ∧
    (aspirationUpdate 40 [5] ⟨0, 25, 3, st0, [], none⟩ =
      { alpha := 0
        beta := INFINITE
        depth := 3
        st := st0
        out := []
        lastPV := none }) := by
  constructor
  · have h := aspiration_window_driver.2.1 7 [5]
      ⟨-INFINITE, INFINITE, 1, st0, [], none⟩ (by decide) (by decide) (by decide)
    rw [h]; decide
  · have h := aspiration_window_driver.2.2 40 [5]
      ⟨0, 25, 3, st0, [], none⟩ (by decide) (by decide) (by decide)
    rw [h]; decide

theorem foldl_abStep_illegal (env : Env) (b : Board) (beta : Int)
    (depth : Nat) (isPvNode checkers : Bool) (se : Int) (pk : Nat)
    (rec : Int → Int → Nat → Node → SearchThread → ABResult)
    (hleg : ∀ m : Move, env.isLegalMove b m = false) :
    ∀ (moves : List Move) (acc : ABAcc),
      moves.foldl (fun acc m =>
        abStep env b beta depth isPvNode checkers se pk rec acc m) acc = acc := by
  intro moves
  induction moves with
  | nil => intro acc; rfl
  | cons m ms ih =>
    intro acc
    have hstep : abStep env b beta depth isPvNode checkers se pk rec acc m = acc := by
      cases acc with
      | done r => rfl
      | cont alpha bestScore bestMove legalMoves pv stA =>
        simp [abStep, hleg m]
    simp only [List.foldl_cons, hstep]
    exact ih acc

theorem abMainLoop_no_legal (env : Env) (b : Board) (alpha beta : Int)
    (depth : Nat) (isPvNode checkers : Bool) (se : Int) (pk : Nat)
    (tm : Move)
    (rec : Int → Int → Nat → Node → SearchThread → ABResult)
    (st3 : SearchThread)
    (hrfp : (!isPvNode && !checkers
      && decide (beta ≤ se - getRFPMargin depth)) = false)
    (hleg : ∀ m : Move, env.isLegalMove b m = false) :
    (abMainLoop env b alpha beta depth isPvNode checkers se pk tm
      rec st3).score = if checkers then -CHECKMATE + (st3.ply : Int) else DRAW := by
  simp only [abMainLoop]
  rw [if_neg (by simp [hrfp])]
  rw [foldl_abStep_illegal env b beta depth isPvNode checkers se pk rec hleg]
  simp

/-- Claim C7: a call to `alphaBeta` with positive depth that reaches the end
of the move loop with zero legal moves (no early draw/timeout return, no
TT cutoff, no null-move cutoff, no reverse-futility return, and every
selected move illegal) returns `-CHECKMATE + ply` when the side to move is
in check and `DRAW` otherwise; the embedding is total, so having no legal
moves is not an error. -/
theorem no_legal_moves_mate_or_stalemate (env : Env) (fuel : Nat)
    (alpha beta : Int) (depth : Nat) (node : Node) (st : SearchThread)
    (hd : 1 ≤ depth)
    (hdraw : (node != Node.ROOT && env.isDraw st.board) = false)
    (htime : env.timeOut st.pollCount = false)
    (hcut : (ttProbeDecision (ttLookup st.tt (env.getPositionKey st.board))
      (node != Node.NON_PV) depth st.ply alpha beta).1 = none)
    (hleg : ∀ m : Move, env.isLegalMove st.board m = false)
    (hnmp : (!(node != Node.NON_PV) && !(env.getCheckers st.board)
        && decide (3 < depth) && decide (beta ≤ nodeStaticEvaluation env st)
        && env.hasNonPawnMaterial st.board) = true →
      -(alphaBeta env fuel (-beta) (-beta + 1) (depth - 4) Node.NON_PV
        { st with
          board := env.makeNullMove st.board
          nodes := st.nodes + 1
          ply := st.ply + 1
          stop := false
          pollCount := st.pollCount + 1 }).score < beta)
    (hrfp : (!(node != Node.NON_PV) && !(env.getCheckers st.board)
      && decide (beta ≤ nodeStaticEvaluation env st - getRFPMargin depth))
        = false) :
    (alphaBeta env (fuel + 1) alpha beta depth node st).score =
      if env.getCheckers st.board then -CHECKMATE + (st.ply : Int) else DRAW := by
  rcases hpair : ttProbeDecision (ttLookup st.tt (env.getPositionKey st.board))
      (node != Node.NON_PV) depth st.ply alpha beta with ⟨c, tm⟩
  rw [hpair] at hcut
  simp only at hcut
  subst hcut
  simp only [alphaBeta]
  rw [if_neg (by omega)]
  rw [if_neg (by simp [hdraw])]
  rw [if_neg (by simp [outOfTime, htime])]
  simp only [outOfTime, htime]
  rw [show (if env.getCheckers st.board then -INFINITE
      else match ttLookup st.tt (env.getPositionKey st.board) with
        | some pe => pe.staticEvaluation
        | none => env.evaluation st.board) = nodeStaticEvaluation env st
    from rfl]
  simp only [hpair]
  by_cases hc : (!(node != Node.NON_PV) && !(env.getCheckers st.board)
      && decide (3 < depth) && decide (beta ≤ nodeStaticEvaluation env st)
      && env.hasNonPawnMaterial st.board) = true
  · rw [if_pos hc]
    rw [if_neg (by simpa using not_le.mpr (hnmp hc))]
    rw [abMainLoop_no_legal env st.board alpha beta depth _ _ _ _ tm _ _
      hrfp hleg]
    have hply := (alphaBeta_frame env fuel (-beta) (-beta + 1) (depth - 4)
      Node.NON_PV
      { st with
        board := env.makeNullMove st.board
        nodes := st.nodes + 1
        ply := st.ply + 1
        stop := false
        pollCount := st.pollCount + 1 }).2.2.2.1
    simp only at hply
    rw [hply]
    simp
  · rw [if_neg hc]
    rw [abMainLoop_no_legal env st.board alpha beta depth _ _ _ _ tm _ _
      hrfp hleg]

theorem no_legal_moves_mate_or_stalemate_witness :
    (alphaBeta env0 3 (-INFINITE) INFINITE 1 Node.ROOT st0).score =
      (if env0.getCheckers st0.board then -CHECKMATE + (st0.ply : Int)
       else DRAW) :=
  no_legal_moves_mate_or_stalemate env0 2 (-INFINITE) INFINITE 1 Node.ROOT
    st0 (by decide) (by decide) (by decide) (by decide)
    (fun m => rfl) (by decide) (by decide)

/-- Claim C5, counterexample: with the time budget already exhausted at the
first loop poll (models `maxSearchTimeNs = 0`), a `startSearch` invocation
whose stop flag is false at entry and whose print flag is set produces no
`info depth 1` line at all — only the final `bestmove` line from the
never-written buffers. -/
theorem info_line_skipped_when_budget_exhausted :
    st0.stop = false ∧ st0.print = true ∧
    (startSearch envT 3 3 st0).out = [Output.bestmove none] := by
  decide

theorem aspirationUpdate_out_extends (score : Int) (pv : List Move)
    (s : IterState) (x : Output) (hx : x ∈ s.out) :
    x ∈ (aspirationUpdate score pv s).out := by
  rw [aspirationUpdate]
  split
  · exact List.mem_append_left _ hx
  · exact hx

theorem searchLoop_out_extends (env : Env) (nf : Nat) :
    ∀ (fuel : Nat) (s : IterState) (x : Output),
      x ∈ s.out → x ∈ (searchLoop env nf fuel s).out := by
  intro fuel
  induction fuel with
  | zero => intro s x hx; exact hx
  | succ n ih =>
    intro s x hx
    simp only [searchLoop]
    split
    · exact hx
    · split
      · exact hx
      · exact ih _ x (aspirationUpdate_out_extends _ _ _ x hx)

/-- Claim C5, amended: an `info depth 1` line is guaranteed only when the
first depth-1 iteration actually completes and is accepted: if the print
flag is set, the first loop poll does not fire, and the depth-1 root
search returns a score strictly inside `(-INFINITE, INFINITE)` with the
stop flag still unset, then the output of `startSearch` contains an info
line for depth 1. -/
theorem info_depth_one_after_completed_first_iteration
    (env : Env) (loopFuel nodeFuel : Nat) (st : SearchThread)
    (hprint : st.print = true)
    (htime : env.timeOut st.pollCount = false)
    (h1 : -INFINITE < (alphaBeta env nodeFuel (-INFINITE) INFINITE 1
      Node.ROOT { st with stop := false, pollCount := st.pollCount + 1 }).score)
    (h2 : (alphaBeta env nodeFuel (-INFINITE) INFINITE 1 Node.ROOT
      { st with stop := false, pollCount := st.pollCount + 1 }).score < INFINITE)
    (h3 : (alphaBeta env nodeFuel (-INFINITE) INFINITE 1 Node.ROOT
      { st with stop := false, pollCount := st.pollCount + 1 }).state.stop
        = false) :
    Output.info 1
      (printSearchScore (alphaBeta env nodeFuel (-INFINITE) INFINITE 1
        Node.ROOT { st with stop := false, pollCount := st.pollCount + 1 }).score).1
      (printSearchScore (alphaBeta env nodeFuel (-INFINITE) INFINITE 1
        Node.ROOT { st with stop := false, pollCount := st.pollCount + 1 }).score).2
      (alphaBeta env nodeFuel (-INFINITE) INFINITE 1 Node.ROOT
        { st with stop := false, pollCount := st.pollCount + 1 }).pv ∈
      (startSearch env (loopFuel + 1) nodeFuel st).out := by
  have hpr : (alphaBeta env nodeFuel (-INFINITE) INFINITE 1 Node.ROOT
      { st with stop := false, pollCount := st.pollCount + 1 }).state.print
        = true := by
    rw [(alphaBeta_frame env nodeFuel (-INFINITE) INFINITE 1 Node.ROOT
      { st with stop := false, pollCount := st.pollCount + 1 }).2.2.1]
    exact hprint
  simp only [startSearch, searchLoop]
  refine List.mem_append_left _ ?_
  rw [if_neg (by decide)]
  rw [if_neg (by simp [outOfTime, htime])]
  simp only [outOfTime, htime]
  refine searchLoop_out_extends env nodeFuel loopFuel _ _ ?_
  rw [aspirationUpdate, if_pos ⟨h1, h2, h3⟩]
  simp [hpr]

theorem abMainLoop_no_legal_state (env : Env) (b : Board) (alpha beta : Int)
    (depth : Nat) (isPvNode checkers : Bool) (se : Int) (pk : Nat)
    (tm : Move)
    (rec : Int → Int → Nat → Node → SearchThread → ABResult)
    (st3 : SearchThread)
    (hrfp : (!isPvNode && !checkers
      && decide (beta ≤ se - getRFPMargin depth)) = false)
    (hleg : ∀ m : Move, env.isLegalMove b m = false) :
    (abMainLoop env b alpha beta depth isPvNode checkers se pk tm
      rec st3).pv = [] ∧
    (abMainLoop env b alpha beta depth isPvNode checkers se pk tm
      rec st3).state.stop = st3.stop ∧
    (abMainLoop env b alpha beta depth isPvNode checkers se pk tm
      rec st3).state.board = st3.board ∧
    (abMainLoop env b alpha beta depth isPvNode checkers se pk tm
      rec st3).state.print = st3.print := by
  simp only [abMainLoop]
  rw [if_neg (by simp [hrfp])]
  rw [foldl_abStep_illegal env b beta depth isPvNode checkers se pk rec hleg]
  simp only
  split <;> simp [savePositionEvaluation]

theorem root_stalemate_node (env : Env) (b0 : Board)
    (hleg : ∀ m : Move, env.isLegalMove b0 m = false)
    (hcheck : env.getCheckers b0 = false)
    (htime : ∀ k, env.timeOut k = false) :
    ∀ (n : Nat) (alpha beta : Int) (d : Nat) (st' : SearchThread),
      1 ≤ d → st'.board = b0 →
      (alphaBeta env (n + 1) alpha beta d Node.ROOT st').score = DRAW ∧
      (alphaBeta env (n + 1) alpha beta d Node.ROOT st').pv = [] ∧
      (alphaBeta env (n + 1) alpha beta d Node.ROOT st').state.stop = false ∧
      (alphaBeta env (n + 1) alpha beta d Node.ROOT st').state.board = b0 := by
  intro n alpha beta d st' hd hb
  have hroot : (Node.ROOT != Node.ROOT) = false := rfl
  have hpv : (Node.ROOT != Node.NON_PV) = true := rfl
  simp only [alphaBeta]
  rw [if_neg (by omega)]
  rw [if_neg (by intro hcond; rw [hroot] at hcond; simp at hcond)]
  rw [if_neg (by simp [outOfTime, htime])]
  simp only [outOfTime, htime, hb]
  have key : ∀ (se : Int) (tm : Move),
      (abMainLoop env b0 alpha beta d (Node.ROOT != Node.NON_PV)
        (env.getCheckers b0) se (env.getPositionKey b0) tm
        (fun a b d nd s => alphaBeta env n a b d nd s)
        { st' with board := b0, nodes := st'.nodes + 1, stop := false, pollCount := st'.pollCount + 1 }).score
          = DRAW ∧
      (abMainLoop env b0 alpha beta d (Node.ROOT != Node.NON_PV)
        (env.getCheckers b0) se (env.getPositionKey b0) tm
        (fun a b d nd s => alphaBeta env n a b d nd s)
        { st' with board := b0, nodes := st'.nodes + 1, stop := false, pollCount := st'.pollCount + 1 }).pv
          = [] ∧
      (abMainLoop env b0 alpha beta d (Node.ROOT != Node.NON_PV)
        (env.getCheckers b0) se (env.getPositionKey b0) tm
        (fun a b d nd s => alphaBeta env n a b d nd s)
        { st' with board := b0, nodes := st'.nodes + 1, stop := false, pollCount := st'.pollCount + 1 }).state.stop
          = false ∧
      (abMainLoop env b0 alpha beta d (Node.ROOT != Node.NON_PV)
        (env.getCheckers b0) se (env.getPositionKey b0) tm
        (fun a b d nd s => alphaBeta env n a b d nd s)
        { st' with board := b0, nodes := st'.nodes + 1, stop := false, pollCount := st'.pollCount + 1 }).state.board
          = b0 := by
    intro se tm
    have habs := abMainLoop_no_legal env b0 alpha beta d
      (Node.ROOT != Node.NON_PV) (env.getCheckers b0) se
      (env.getPositionKey b0) tm
      (fun a b d nd s => alphaBeta env n a b d nd s)
      { st' with board := b0, nodes := st'.nodes + 1, stop := false, pollCount := st'.pollCount + 1 }
      (by rw [hpv]; simp) hleg
    have hst := abMainLoop_no_legal_state env b0 alpha beta d
      (Node.ROOT != Node.NON_PV) (env.getCheckers b0) se
      (env.getPositionKey b0) tm
      (fun a b d nd s => alphaBeta env n a b d nd s)
      { st' with board := b0, nodes := st'.nodes + 1, stop := false, pollCount := st'.pollCount + 1 }
      (by rw [hpv]; simp) hleg
    exact ⟨by rw [habs]; simp [hcheck], hst.1, by rw [hst.2.1],
      by rw [hst.2.2.1]⟩
  rcases hp : ttLookup st'.tt (env.getPositionKey b0) with _ | pe <;>
    simp only [ttProbeDecision, hp] <;>
    rw [if_neg (by intro hcond; rw [hpv] at hcond; simp at hcond)] <;>
    exact key _ _

theorem searchLoop_keeps_target (env : Env) (b0 : Board)
    (hleg : ∀ m : Move, env.isLegalMove b0 m = false)
    (hcheck : env.getCheckers b0 = false)
    (htime : ∀ k, env.timeOut k = false) (nf : Nat) :
    ∀ (fuel : Nat) (s : IterState),
      s.st.board = b0 → s.alpha < 0 → 0 < s.beta →
      s.st.bestMove = ⟨NO_MOVE, DRAW⟩ →
      (searchLoop env nf fuel s).st.bestMove = ⟨NO_MOVE, DRAW⟩ := by
  intro fuel
  induction fuel with
  | zero => intro s _ _ _ hm; exact hm
  | succ n ih =>
    intro s hb ha hbe hm
    simp only [searchLoop]
    by_cases hd0 : s.depth = 0
    · rw [if_pos hd0]; exact hm
    · rw [if_neg hd0]
      rw [if_neg (by simp [outOfTime, htime])]
      simp only [outOfTime, htime]
      have hr : (alphaBeta env nf s.alpha s.beta s.depth Node.ROOT
            { s.st with stop := false, pollCount := s.st.pollCount + 1 }).score
              = DRAW ∧
          (alphaBeta env nf s.alpha s.beta s.depth Node.ROOT
            { s.st with stop := false, pollCount := s.st.pollCount + 1 }).pv
              = [] ∧
          (alphaBeta env nf s.alpha s.beta s.depth Node.ROOT
            { s.st with stop := false, pollCount := s.st.pollCount + 1 }).state.stop
              = false ∧
          (alphaBeta env nf s.alpha s.beta s.depth Node.ROOT
            { s.st with stop := false, pollCount := s.st.pollCount + 1 }).state.board
              = b0 := by
        rcases nf with _ | m
        · exact ⟨rfl, rfl, rfl, hb⟩
        · exact root_stalemate_node env b0 hleg hcheck htime m s.alpha s.beta
            s.depth _ (by omega) hb
      rw [hr.1, hr.2.1]
      rw [aspirationUpdate, if_pos ⟨ha, hbe, hr.2.2.1⟩]
      exact ih _ hr.2.2.2
        (by show DRAW - ASPIRATION_WINDOW < 0; decide)
        (by show (0 : Int) < DRAW + ASPIRATION_WINDOW; decide) rfl

theorem searchLoop_sets_target (env : Env) (b0 : Board)
    (hleg : ∀ m : Move, env.isLegalMove b0 m = false)
    (hcheck : env.getCheckers b0 = false)
    (htime : ∀ k, env.timeOut k = false) (nf : Nat) :
    ∀ (fuel : Nat) (s : IterState),
      s.st.board = b0 → s.alpha < 0 → 0 < s.beta → 1 ≤ s.depth → 1 ≤ fuel →
      (searchLoop env nf fuel s).st.bestMove = ⟨NO_MOVE, DRAW⟩ := by
  intro fuel
  rcases fuel with _ | n
  · intro s _ _ _ _ hf; omega
  · intro s hb ha hbe hd _
    simp only [searchLoop]
    rw [if_neg (by omega)]
    rw [if_neg (by simp [outOfTime, htime])]
    simp only [outOfTime, htime]
    have hr : (alphaBeta env nf s.alpha s.beta s.depth Node.ROOT
          { s.st with stop := false, pollCount := s.st.pollCount + 1 }).score
            = DRAW ∧
        (alphaBeta env nf s.alpha s.beta s.depth Node.ROOT
          { s.st with stop := false, pollCount := s.st.pollCount + 1 }).pv
            = [] ∧
        (alphaBeta env nf s.alpha s.beta s.depth Node.ROOT
          { s.st with stop := false, pollCount := s.st.pollCount + 1 }).state.stop
            = false ∧
        (alphaBeta env nf s.alpha s.beta s.depth Node.ROOT
          { s.st with stop := false, pollCount := s.st.pollCount + 1 }).state.board
            = b0 := by
      rcases nf with _ | m
      · exact ⟨rfl, rfl, rfl, hb⟩
      · exact root_stalemate_node env b0 hleg hcheck htime m s.alpha s.beta
          s.depth _ (by omega) hb
    rw [hr.1, hr.2.1]
    rw [aspirationUpdate, if_pos ⟨ha, hbe, hr.2.2.1⟩]
    exact searchLoop_keeps_target env b0 hleg hcheck htime nf n _ hr.2.2.2
      (by show DRAW - ASPIRATION_WINDOW < 0; decide)
      (by show (0 : Int) < DRAW + ASPIRATION_WINDOW; decide) rfl

/-- Claim C10: if the root position has no legal moves, the side to move is
not in check, and the clock never stops the search, then `startSearch`
accepts the depth-1 result (the root PV buffer keeps its reset value
`NO_MOVE`) and publishes the `{NO_MOVE, DRAW}` sentinel pair as the root
best move, which is exactly the condition the training driver's
`isStalemate` tests to end a game. -/
theorem stalemate_root_publishes_no_move (env : Env)
    (loopFuel nodeFuel : Nat) (st : SearchThread)
    (hleg : ∀ m : Move, env.isLegalMove st.board m = false)
    (hcheck : env.getCheckers st.board = false)
    (htime : ∀ k, env.timeOut k = false)
    (hlf : 1 ≤ loopFuel) :
    (startSearch env loopFuel nodeFuel st).st.bestMove =
      MoveObject.mk NO_MOVE DRAW ∧
    isStalemate DRAW NO_MOVE = true := by
  refine ⟨?_, by decide⟩
  have heq : (startSearch env loopFuel nodeFuel st).st =
      (searchLoop env nodeFuel loopFuel
        ⟨-INFINITE, INFINITE, 1, st, [], none⟩).st := rfl
  rw [heq]
  exact searchLoop_sets_target env st.board hleg hcheck htime nodeFuel
    loopFuel ⟨-INFINITE, INFINITE, 1, st, [], none⟩ rfl
    (by show -INFINITE < (0 : Int); decide)
    (by show (0 : Int) < INFINITE; decide)
    (by show (1 : Nat) ≤ 1; decide) hlf

theorem stalemate_root_publishes_no_move_witness :
    (startSearch env0 1 1 st0).st.bestMove = MoveObject.mk NO_MOVE DRAW ∧
    isStalemate DRAW NO_MOVE = true :=
  stalemate_root_publishes_no_move env0 1 1 st0 (fun m => rfl) rfl
    (fun k => rfl) (by decide)

theorem isCheckmate_false_iff (s : Int) :
    isCheckmate s = false ↔ |s| < GUARANTEE_CHECKMATE := by
  simp only [isCheckmate, Bool.or_eq_false_iff, decide_eq_false_iff_not,
    not_le, abs_lt]

theorem record_step (env : Env) (b : Board) (mo : MoveObject)
    (chain : List GameData) :
    (if !(env.getCheckers b) && !(isCheckmate mo.score)
        && !(env.insufficientMaterial b) then
      createGameData env b mo.score :: chain
    else chain) = (specTrainingRecord env b mo).toList ++ chain := by
  by_cases hr : env.getCheckers b = false ∧
      |mo.score| < GUARANTEE_CHECKMATE ∧
      env.insufficientMaterial b = false
  · obtain ⟨c1, c2, c3⟩ := hr
    rw [if_pos (by simp [c1, c3, (isCheckmate_false_iff mo.score).mpr c2]),
      specTrainingRecord, if_pos ⟨c1, c2, c3⟩]
    simp [createGameData, BLACK]
  · rw [if_neg ?cond, specTrainingRecord, if_neg hr]
    · simp
    case cond =>
      intro hb
      simp only [Bool.and_eq_true, Bool.not_eq_true'] at hb
      exact hr ⟨hb.1.1, (isCheckmate_false_iff mo.score).mp hb.1.2, hb.2⟩

/-- Claim C9: in the self-play loop, for every searched position a training
record is created if and only if the side to move is not in check, the
search score is not a mate score, and material is sufficient, with the
recorded score negated exactly for Black and the FEN captured before the
best move is played: for every completed game the written lines are the
spec-side records (`specTrainingRecord`) of the qualifying searched
positions, most recent first, followed by the previously chained records,
all labelled with the final outcome. -/
theorem training_records_characterization (env : Env)
    (loopFuel nodeFuel : Nat) :
    ∀ (fuel : Nat) (st : SearchThread) (chain : List GameData)
      (out : Outcome) (lines : List TrainingLine),
      (playGame env loopFuel nodeFuel fuel st chain).2 = some (out, lines) →
      lines =
        (((playGame env loopFuel nodeFuel fuel st chain).1.filterMap
            (fun e => specTrainingRecord env e.board e.result)).reverse
          ++ chain).map (fun g => (g.fen, g.score, out)) := by
  intro fuel
  induction fuel with
  | zero =>
    intro st chain out lines h
    simp [playGame] at h
  | succ n ih =>
    intro st chain out lines h
    simp only [playGame] at h ⊢
    rw [record_step] at h ⊢
    by_cases hend : isEndOfGame env
        (startSearch env loopFuel nodeFuel st).st.board
        (startSearch env loopFuel nodeFuel st).st.bestMove = true
    · rw [if_pos hend] at h ⊢
      simp only [Option.some.injEq, Prod.mk.injEq] at h
      obtain ⟨rfl, rfl⟩ := h
      simp only [writeGameData, List.filterMap_cons]
      rcases hf : specTrainingRecord env
          (startSearch env loopFuel nodeFuel st).st.board
          (startSearch env loopFuel nodeFuel st).st.bestMove with _ | r <;>
        simp [hf]
    · rw [if_neg hend] at h ⊢
      simp only at h ⊢
      have hrec := ih _ _ out lines h
      rw [hrec]
      simp only [List.filterMap_cons]
      rcases hf : specTrainingRecord env
          (startSearch env loopFuel nodeFuel st).st.board
          (startSearch env loopFuel nodeFuel st).st.bestMove with _ | r <;>
        simp [hf, List.reverse_cons, List.append_assoc]

theorem training_records_characterization_witness :
    ((playGame envW 1 1 1 stTrain []).2 = some (Outcome.blackWin, [])) ∧
    ([] : List TrainingLine) =
      (((playGame envW 1 1 1 stTrain []).1.filterMap
          (fun e => specTrainingRecord envW e.board e.result)).reverse
        ++ ([] : List GameData)).map
          (fun g => (g.fen, g.score, Outcome.blackWin)) :=
  ⟨by decide,
   training_records_characterization envW 1 1 1 stTrain [] Outcome.blackWin
     [] (by decide)⟩

theorem info_depth_one_witness :
    Output.info 1
      (printSearchScore (alphaBeta env0 3 (-INFINITE) INFINITE 1
        Node.ROOT { st0 with stop := false, pollCount := st0.pollCount + 1 }).score).1
      (printSearchScore (alphaBeta env0 3 (-INFINITE) INFINITE 1
        Node.ROOT { st0 with stop := false, pollCount := st0.pollCount + 1 }).score).2
      (alphaBeta env0 3 (-INFINITE) INFINITE 1 Node.ROOT
        { st0 with stop := false, pollCount := st0.pollCount + 1 }).pv ∈
      (startSearch env0 1 3 st0).out :=
  info_depth_one_after_completed_first_iteration env0 0 3 st0 rfl rfl
    (by decide) (by decide) (by decide)

end Revolver
